import Mathlib

/-!
Verification development for the `dbro` connection manager and migration
runner.  The Go sources are shallowly embedded: strings are modelled as
`List Char` where character-level scanning matters, Go maps as association
lists, the gorm client handle as an opaque `Nat`, Go errors as their
message strings, and filesystem / database effects as explicit oracle
parameters.  Lock acquisitions and other externally visible effects are
recorded in event traces.
-/

set_option maxRecDepth 4000

namespace Dbro

/-- The single-quote character (written via its code point). -/
def sqc : Char := Char.ofNat 39

/-- The double-quote character (written via its code point). -/
def dqc : Char := Char.ofNat 34

/-- One-character string holding a single quote. -/
def sq : String := String.mk [sqc]

/-- Whitespace recognized by Go `strings.TrimSpace` (ASCII part; exotic
Unicode spaces are not modelled since no claim involves them). -/
def wsChar (c : Char) : Bool :=
  c = ' ' || c = '\t' || c = '\n' || c = Char.ofNat 11 || c = Char.ofNat 12 || c = '\r'

/-- Drop leading whitespace. -/
def trimLeft : List Char → List Char
  | [] => []
  | c :: r => if wsChar c then trimLeft r else c :: r

/-- Drop trailing whitespace. -/
def trimRight (l : List Char) : List Char :=
  (trimLeft l.reverse).reverse

/-- Model of Go `strings.TrimSpace`. -/
def trimSpace (l : List Char) : List Char :=
  trimRight (trimLeft l)

/-- Model of Go `strings.HasPrefix` on character lists. -/
def hasPrefixL : List Char → List Char → Bool
  | _, [] => true
  | [], _ :: _ => false
  | c :: r, p :: ps => c = p && hasPrefixL r ps

/-- Model of Go `strings.Split` with a one-character separator. -/
def splitOnChar (sep : Char) : List Char → List (List Char)
  | [] => [[]]
  | c :: rest =>
    if c = sep then [] :: splitOnChar sep rest
    else
      match splitOnChar sep rest with
      | [] => [[c]]
      | l :: ls => (c :: l) :: ls

/-- Scanner state of the quote-aware splitter in `migration.go`:
the emitted statements, the current statement accumulator
(`currentStatement`), and the quote-tracking flags. -/
structure SplitState where
  statements : List (List Char)
  cur : List Char
  inQuotes : Bool
  quoteChar : Char

/-- The character loop of `splitSQLStatements` (migration.go, lines 34-65)
over one line, including the doubled-quote escape lookahead.  The state is
destructured once per call so that concrete runs reduce in linear time. -/
def scanLine : SplitState → List Char → SplitState
  | st, [] => st
  | ⟨stmts, cur, inQ, qc⟩, c :: rest =>
    if !inQ && (c = sqc || c = dqc) then
      scanLine ⟨stmts, cur ++ [c], true, c⟩ rest
    else if inQ && c = qc then
      match rest with
      | c2 :: rest2 =>
        if c2 = qc then
          scanLine ⟨stmts, cur ++ [c, c], inQ, qc⟩ rest2
        else
          scanLine ⟨stmts, cur ++ [c], false, qc⟩ (c2 :: rest2)
      | [] => ⟨stmts, cur ++ [c], false, qc⟩
    else if !inQ && c = ';' then
      let stmt := trimSpace cur
      scanLine ⟨stmts ++ (if stmt ≠ [] then [stmt] else []), [], inQ, qc⟩ rest
    else
      scanLine ⟨stmts, cur ++ [c], inQ, qc⟩ rest

/-- Per-line processing of `splitSQLStatements`: trim the line, skip
comment and blank lines, scan the rest, and keep a newline inside a
still-open statement. -/
def processLine (st : SplitState) (rawLine : List Char) : SplitState :=
  let line := trimSpace rawLine
  if hasPrefixL line ['-', '-'] || hasPrefixL line ['#'] then st
  else if hasPrefixL line ['/', '*'] then st
  else if line = [] then st
  else
    match scanLine st line with
    | ⟨stmts, cur, inQ, qc⟩ =>
      if cur ≠ [] then ⟨stmts, cur ++ ['\n'], inQ, qc⟩ else ⟨stmts, cur, inQ, qc⟩

/-- `splitSQLStatements` from `migration.go`: the line-oriented,
quote-tracking statement splitter. -/
def splitSQLStatements (sqlContent : List Char) : List (List Char) :=
  match List.foldl processLine ⟨[], [], false, Char.ofNat 0⟩ (splitOnChar '\n' sqlContent) with
  | ⟨stmts, cur, _, _⟩ =>
    if cur ≠ [] then
      let stmt := trimSpace cur
      if stmt ≠ [] then stmts ++ [stmt] else stmts
    else stmts

/-- `splitSQLStatements` from the second source file (`src/unnamed/part_001`):
plain split on every semicolon, then trim and drop blanks and comments. -/
def splitSQLStatementsSimple (sqlContent : List Char) : List (List Char) :=
  List.foldl
    (fun acc part =>
      let p := trimSpace part
      if p = [] then acc
      else if hasPrefixL p ['-', '-'] || hasPrefixL p ['#'] then acc
      else acc ++ [p])
    []
    (splitOnChar ';' sqlContent)

/-- The two-line scenario from the specification, with single quotes. -/
def c1Input : List Char :=
  "INSERT INTO t VALUES (".toList ++ [sqc] ++ "a;b".toList ++ [sqc] ++ ");".toList
    ++ ['\n'] ++ "INSERT INTO t VALUES (".toList ++ [sqc] ++ "c".toList ++ [sqc] ++ ");".toList

def c1Out1 : List Char :=
  "INSERT INTO t VALUES (".toList ++ [sqc] ++ "a;b".toList ++ [sqc] ++ ")".toList

def c1Out2 : List Char :=
  "INSERT INTO t VALUES (".toList ++ [sqc] ++ "c".toList ++ [sqc] ++ ")".toList

/-- A statement with a doubled-quote escape and an embedded semicolon. -/
def c1EscInput : List Char :=
  "INSERT INTO t VALUES (".toList ++ [sqc] ++ "a;".toList ++ [sqc, sqc] ++ "x".toList
    ++ [sqc] ++ ");".toList

def c1EscOut : List Char :=
  "INSERT INTO t VALUES (".toList ++ [sqc] ++ "a;".toList ++ [sqc, sqc] ++ "x".toList
    ++ [sqc] ++ ")".toList

/-- Single-line input whose quoted literal contains a semicolon. -/
def c9Input : List Char :=
  "INSERT INTO t VALUES (".toList ++ [sqc] ++ "a;b".toList ++ [sqc] ++ ");".toList

/-- Characters with no lexical role in the splitter: not a statement
separator, not a quote mark, not a line break. -/
def plainChar (c : Char) : Bool :=
  !(c = ';') && !(c = sqc) && !(c = dqc) && !(c = '\n')

/-- A well-formed single-line SQL statement for the round-trip property:
non-empty, already trimmed, made of plain characters only, and not
starting with a line-comment or block-comment marker. -/
def goodStmt (s : List Char) : Prop :=
  s ≠ [] ∧ trimSpace s = s ∧ (∀ c ∈ s, plainChar c = true)
    ∧ hasPrefixL s ['-', '-'] = false ∧ hasPrefixL s ['#'] = false
    ∧ hasPrefixL s ['/', '*'] = false

instance (s : List Char) : Decidable (goodStmt s) := by
  unfold goodStmt; infer_instance

/-- Render a statement list as SQL text: every statement but the last is
terminated by a semicolon and a newline; the last one is left without a
closing semicolon. -/
def renderSQL : List (List Char) → List Char
  | [] => []
  | [s] => s
  | s :: rest => s ++ ';' :: '\n' :: renderSQL rest

/-- Externally visible events of a manager operation: acquisitions and
releases of the connection-cache lock (`mu`) and of the migration-tracking
lock (`migrationMu`), factory invocations, and the execution of a
migration transaction. -/
inductive Ev where
  | connRLock
  | connRUnlock
  | connLock
  | connUnlock
  | migRLock
  | migRUnlock
  | migLock
  | migUnlock
  | factoryCall
  | txExec
deriving DecidableEq

/-- A stored connection configuration (`connDsn` in manager.go). -/
structure ConnDsn where
  DriverName : String
  Dsn : String

/-- The manager state (`ConnectionManager` in manager.go).  Go maps are
modelled as association lists; the gorm client handle is an opaque `Nat`;
a factory (`connectionFn`) is a function from DSN to client or error. -/
structure ConnectionManager where
  connConfigs : List (String × ConnDsn)
  connectionFns : List (String × (String → Except String Nat))
  connections : List (String × Nat)
  executedMigrations : List String

/-- Go map lookup on an association list. -/
def lookupL {α : Type} : List (String × α) → String → Option α
  | [], _ => none
  | (k, v) :: rest, key => if k = key then some v else lookupL rest key

/-- Go map assignment on an association list. -/
def mapSet {α : Type} : List (String × α) → String → α → List (String × α)
  | [], key, v => [(key, v)]
  | (k, w) :: rest, key, v =>
    if k = key then (key, v) :: rest else (k, w) :: mapSet rest key v

/-- Result of `GetConnection`: the returned client or error, the manager
state afterwards, and the event trace of the call. -/
structure GetConnResult where
  result : Except String Nat
  state : ConnectionManager
  trace : List Ev

/-- `GetConnection` (manager.go, lines 49-82).  The sequential embedding
collapses the double-checked locking: the re-check under the exclusive
lock reads the same map as the optimistic check under the read lock. -/
def getConnection (m : ConnectionManager) (name : String) : GetConnResult :=
  match lookupL m.connConfigs name with
  | none =>
    ⟨.error ("database connection config not found for " ++ name), m,
      [.connRLock, .connRUnlock]⟩
  | some config =>
    match lookupL m.connectionFns config.DriverName with
    | none =>
      ⟨.error ("database connection function not found for driver " ++ config.DriverName), m,
        [.connRLock, .connRUnlock]⟩
    | some connFn =>
      match lookupL m.connections name with
      | some conn => ⟨.ok conn, m, [.connRLock, .connRUnlock]⟩
      | none =>
        match connFn config.Dsn with
        | .error e =>
          ⟨.error e, m, [.connRLock, .connRUnlock, .connLock, .factoryCall, .connUnlock]⟩
        | .ok conn =>
          ⟨.ok conn, { m with connections := mapSet m.connections name conn },
            [.connRLock, .connRUnlock, .connLock, .factoryCall, .connUnlock]⟩

/-- The statement loop inside the `db.Transaction` closure of
`RunMigration`: statements are re-trimmed, blank ones are skipped, and the
first failing `Exec` aborts with an error naming the 1-based index, the
file path, the driver error and the statement text.  Returns the result
together with the list of statements actually passed to `Exec`. -/
def runMigrationTx (exec : List Char → Option String) (filePath : String) :
    List (List Char) → Nat → Except String Unit × List (List Char)
  | [], _ => (.ok (), [])
  | stmt :: rest, i =>
    let s := trimSpace stmt
    if s = [] then runMigrationTx exec filePath rest (i + 1)
    else
      match exec s with
      | some e =>
        (.error ("failed to execute statement " ++ toString (i + 1) ++ " in file " ++ filePath
          ++ ": " ++ e ++ "\nStatement: " ++ String.mk s), [s])
      | none =>
        let r := runMigrationTx exec filePath rest (i + 1)
        (r.1, s :: r.2)

/-- Result of `RunMigration`: outcome, state afterwards, the list of
statements committed to the database (empty when the transaction rolled
back), and the event trace. -/
structure RunMigResult where
  result : Except String Unit
  state : ConnectionManager
  committed : List (List Char)
  trace : List Ev

/-- `RunMigration` (manager.go, lines 176-215).  `os.ReadFile` is
modelled by the `fileContent` oracle and `tx.Exec` by the `exec` oracle;
a failing transaction is rolled back, so nothing is committed. -/
def runMigration (m : ConnectionManager) (name filePath : String)
    (fileContent : Except String (List Char)) (exec : List Char → Option String) :
    RunMigResult :=
  match getConnection m name with
  | ⟨.error e, m2, tr⟩ => ⟨.error ("failed to get connection: " ++ e), m2, [], tr⟩
  | ⟨.ok _db, m2, tr⟩ =>
    match fileContent with
    | .error e => ⟨.error ("failed to read SQL file " ++ filePath ++ ": " ++ e), m2, [], tr⟩
    | .ok content =>
      let sqlString := trimSpace content
      if sqlString = [] then ⟨.error ("SQL file " ++ filePath ++ " is empty"), m2, [], tr⟩
      else
        let statements := splitSQLStatements sqlString
        if statements = [] then
          ⟨.error ("no valid SQL statements found in file " ++ filePath), m2, [], tr⟩
        else
          match runMigrationTx exec filePath statements 0 with
          | (.error e, _attempted) => ⟨.error e, m2, [], tr ++ [.txExec]⟩
          | (.ok (), executed) => ⟨.ok (), m2, executed, tr ++ [.txExec]⟩

/-- The composite migration key of `RunMigrationOnce`:
`fmt.Sprintf("%s:%s", name, filePath)`. -/
def migrationKey (name filePath : String) : String :=
  name ++ ":" ++ filePath

/-- Result of `RunMigrationOnce`: outcome, state, whether the migration
body (`RunMigration`) was invoked, committed statements, and trace. -/
structure RunOnceResult where
  result : Except String Unit
  state : ConnectionManager
  ran : Bool
  committed : List (List Char)
  trace : List Ev

/-- `RunMigrationOnce` (manager.go, lines 219-244).  The exclusive
migration lock is held around the whole `RunMigration` call (the Go code
unlocks via `defer` after the body); the sequential embedding collapses
the double-check, which reads the same set. -/
def runMigrationOnce (m : ConnectionManager) (name filePath : String)
    (fileContent : Except String (List Char)) (exec : List Char → Option String) :
    RunOnceResult :=
  let mkey := migrationKey name filePath
  if mkey ∈ m.executedMigrations then
    ⟨.ok (), m, false, [], [.migRLock, .migRUnlock]⟩
  else
    match runMigration m name filePath fileContent exec with
    | ⟨.error e, m2, _, tr⟩ =>
      ⟨.error e, m2, true, [], [.migRLock, .migRUnlock, .migLock] ++ tr ++ [.migUnlock]⟩
    | ⟨.ok (), m2, committed, tr⟩ =>
      ⟨.ok (), { m2 with executedMigrations := mkey :: m2.executedMigrations }, true, committed,
        [.migRLock, .migRUnlock, .migLock] ++ tr ++ [.migUnlock]⟩

/-- The loop body of `CloseAll` (manager.go, lines 105-121): close each
cached client in turn; `conn.DB()` and `sqlDB.Close()` outcomes are given
by oracles.  Returns the error (if any) and the clients actually closed,
in iteration order. -/
def closeAllLoop (dbErr closeErr : Nat → Option String) :
    List (String × Nat) → Option String × List Nat
  | [] => (none, [])
  | (_, conn) :: rest =>
    match dbErr conn with
    | some e => (some e, [])
    | none =>
      match closeErr conn with
      | some e => (some e, [])
      | none =>
        let r := closeAllLoop dbErr closeErr rest
        (r.1, conn :: r.2)

/-- `CloseAll`: on any failure the error is returned at once and the
connections map is left as it was (already-closed entries included); only
when every close succeeds is the map reset to empty. -/
def closeAll (m : ConnectionManager) (dbErr closeErr : Nat → Option String) :
    Option String × ConnectionManager × List Nat :=
  match closeAllLoop dbErr closeErr m.connections with
  | (some e, closed) => (some e, m, closed)
  | (none, closed) => (none, { m with connections := [] }, closed)

/-- Scan a trace and decide whether some occurrence of `ev` lies strictly
inside an open `lk` … `ul` span (the lock is held when `ev` happens). -/
def insideLock (lk ul ev : Ev) : List Ev → Nat → Bool
  | [], _ => false
  | e :: rest, d =>
    if e = lk then insideLock lk ul ev rest (d + 1)
    else if e = ul then insideLock lk ul ev rest (d - 1)
    else if e = ev && d > 0 then true
    else insideLock lk ul ev rest d

/-- Whether `ev` happens while the `lk`/`ul` lock is held, over a trace. -/
def evHeldDuring (lk ul ev : Ev) (tr : List Ev) : Bool :=
  insideLock lk ul ev tr 0

/-- `PRAGMA foreign_keys = OFF` (flush.go). -/
def sqliteFkOff : String := "PRAGMA foreign_keys = OFF"

/-- `PRAGMA foreign_keys = ON` (flush.go). -/
def sqliteFkOn : String := "PRAGMA foreign_keys = ON"

/-- The SQLite user-table enumeration query (flush.go). -/
def sqliteEnum : String :=
  "SELECT name FROM sqlite_master WHERE type=" ++ sq ++ "table" ++ sq
    ++ " AND name NOT LIKE " ++ sq ++ "sqlite_%" ++ sq

/-- `SET FOREIGN_KEY_CHECKS = 0` (drop source file). -/
def mysqlFkOff : String := "SET FOREIGN_KEY_CHECKS = 0"

/-- `SET FOREIGN_KEY_CHECKS = 1` (drop source file). -/
def mysqlFkOn : String := "SET FOREIGN_KEY_CHECKS = 1"

/-- `SHOW TABLES` (drop source file). -/
def mysqlEnum : String := "SHOW TABLES"

/-- The per-table loop shared by the dialect operations: issue the
destructive statement for each table in order; the first failure aborts
the loop with an error naming the table.  Returns the error (if any) and
the statements actually issued. -/
def execTables (exec : String → Option String) (mkStmt : String → String) (verb : String) :
    List String → Option String × List String
  | [] => (none, [])
  | table :: rest =>
    let stmt := mkStmt table
    match exec stmt with
    | some e => (some ("failed to " ++ verb ++ " table " ++ table ++ ": " ++ e), [stmt])
    | none =>
      let r := execTables exec mkStmt verb rest
      (r.1, stmt :: r.2)

/-- `FlushSQLiteTables` (flush.go, lines 10-35).  `db.Exec` outcomes come
from the `exec` oracle, the `db.Raw(...).Scan` enumeration from the
`tables` oracle; the second component is the list of statements issued,
in order. -/
def FlushSQLiteTables (exec : String → Option String)
    (tables : Except String (List String)) : Option String × List String :=
  match exec sqliteFkOff with
  | some e => (some ("failed to disable foreign keys: " ++ e), [sqliteFkOff])
  | none =>
    match tables with
    | .error e => (some ("failed to get table names: " ++ e), [sqliteFkOff, sqliteEnum])
    | .ok tbls =>
      match execTables exec (fun t => "DELETE FROM " ++ t) "flush" tbls with
      | (some e, log) => (some e, sqliteFkOff :: sqliteEnum :: log)
      | (none, log) =>
        match exec sqliteFkOn with
        | some e =>
          (some ("failed to re-enable foreign keys: " ++ e),
            sqliteFkOff :: sqliteEnum :: (log ++ [sqliteFkOn]))
        | none => (none, sqliteFkOff :: sqliteEnum :: (log ++ [sqliteFkOn]))

/-- `DropMySQLTables` (drop source file, lines 38-63), modelled like
`FlushSQLiteTables`. -/
def DropMySQLTables (exec : String → Option String)
    (tables : Except String (List String)) : Option String × List String :=
  match exec mysqlFkOff with
  | some e => (some ("failed to disable foreign key checks: " ++ e), [mysqlFkOff])
  | none =>
    match tables with
    | .error e => (some ("failed to get table names: " ++ e), [mysqlFkOff, mysqlEnum])
    | .ok tbls =>
      match execTables exec (fun t => "DROP TABLE IF EXISTS " ++ t) "drop" tbls with
      | (some e, log) => (some e, mysqlFkOff :: mysqlEnum :: log)
      | (none, log) =>
        match exec mysqlFkOn with
        | some e =>
          (some ("failed to re-enable foreign key checks: " ++ e),
            mysqlFkOff :: mysqlEnum :: (log ++ [mysqlFkOn]))
        | none => (none, mysqlFkOff :: mysqlEnum :: (log ++ [mysqlFkOn]))

/-- A factory that always yields client handle 1. -/
def demoFactory : String → Except String Nat := fun _ => .ok 1

/-- A fresh manager with one sqlite config and its factory registered. -/
def mgr0 : ConnectionManager :=
  ⟨[("db", ⟨"sqlite", "file.db"⟩)], [("sqlite", demoFactory)], [], []⟩

/-- `mgr0` after the connection for `db` has been created and cached. -/
def mgr1 : ConnectionManager :=
  ⟨[("db", ⟨"sqlite", "file.db"⟩)], [("sqlite", demoFactory)], [("db", 1)], []⟩

/-- Manager whose only configured name is the colliding `a:b`. -/
def mgrC10 : ConnectionManager :=
  ⟨[("a:b", ⟨"sqlite", "file.db"⟩)], [("sqlite", demoFactory)], [], []⟩

/-- Manager with two cached connections, for the close-all scenarios. -/
def mgrC6 : ConnectionManager :=
  ⟨[], [], [("a", 1), ("b", 2)], []⟩

/-- File content holding one statement. -/
def contentOk : Except String (List Char) := .ok ("SELECT 1".toList)

/-- File content holding three statements, `a`, `b` and `c`. -/
def contentABC : Except String (List Char) := .ok ("a;b;c".toList)

/-- Statement executor that always succeeds. -/
def execOk : List Char → Option String := fun _ => none

/-- Statement executor that fails exactly on statement `b`. -/
def execFailB : List Char → Option String :=
  fun s => if s = "b".toList then some "boom" else none

/-- `conn.DB()` / `sqlDB.Close()` oracle that always succeeds. -/
def noErr : Nat → Option String := fun _ => none

/-- Close oracle that fails exactly for client 2. -/
def closeFail2 : Nat → Option String :=
  fun n => if n = 2 then some "close failed" else none

/-- Table statement executor failing exactly on the flush of `u2`. -/
def execC7f : String → Option String :=
  fun s => if s = "DELETE FROM u2" then some "locked" else none

/-- Table statement executor failing exactly on the drop of `u2`. -/
def execC7d : String → Option String :=
  fun s => if s = "DROP TABLE IF EXISTS u2" then some "locked" else none

theorem trimLeft_cons_of_nws (c : Char) (r : List Char) (h : wsChar c = false) :
    trimLeft (c :: r) = c :: r := by
  simp [trimLeft, h]

theorem trimLeft_exists_drop (l : List Char) : ∃ t, t ++ trimLeft l = l := by
  induction l with
  | nil => exact ⟨[], rfl⟩
  | cons c r ih =>
    by_cases h : wsChar c = true
    · obtain ⟨t, ht⟩ := ih
      exact ⟨c :: t, by simp [trimLeft, h, ht]⟩
    · exact ⟨[], by simp [trimLeft, h]⟩

theorem trimLeft_length_le (l : List Char) : (trimLeft l).length ≤ l.length := by
  obtain ⟨t, ht⟩ := trimLeft_exists_drop l
  calc (trimLeft l).length ≤ t.length + (trimLeft l).length := Nat.le_add_left _ _
  _ = l.length := by rw [← List.length_append, ht]

theorem trimLeft_eq_self_of_length (l : List Char)
    (h : (trimLeft l).length = l.length) : trimLeft l = l := by
  obtain ⟨t, ht⟩ := trimLeft_exists_drop l
  have hl : t.length + (trimLeft l).length = l.length := by
    rw [← List.length_append, ht]
  have : t = [] := by
    have : t.length = 0 := by omega
    exact List.length_eq_zero.mp this
  simpa [this] using ht

theorem trimRight_exists_drop (l : List Char) : ∃ t, trimRight l ++ t = l := by
  obtain ⟨t, ht⟩ := trimLeft_exists_drop l.reverse
  refine ⟨t.reverse, ?_⟩
  have := congrArg List.reverse ht
  simpa [trimRight, List.reverse_append] using this

theorem trimRight_length_le (l : List Char) : (trimRight l).length ≤ l.length := by
  obtain ⟨t, ht⟩ := trimRight_exists_drop l
  calc (trimRight l).length ≤ (trimRight l).length + t.length := Nat.le_add_right _ _
  _ = l.length := by rw [← List.length_append, ht]

theorem trimRight_eq_self_of_length (l : List Char)
    (h : (trimRight l).length = l.length) : trimRight l = l := by
  obtain ⟨t, ht⟩ := trimRight_exists_drop l
  have hl : (trimRight l).length + t.length = l.length := by
    rw [← List.length_append, ht]
  have : t = [] := by
    have : t.length = 0 := by omega
    exact List.length_eq_zero.mp this
  simpa [this] using ht

theorem trim_fix_parts (l : List Char) (h : trimSpace l = l) :
    trimLeft l = l ∧ trimRight l = l := by
  have h1 : (trimRight (trimLeft l)).length ≤ (trimLeft l).length := trimRight_length_le _
  have h2 : (trimLeft l).length ≤ l.length := trimLeft_length_le _
  have h3 : (trimRight (trimLeft l)).length = l.length := by
    rw [show trimRight (trimLeft l) = l from h]
  have hL : trimLeft l = l := trimLeft_eq_self_of_length l (by omega)
  refine ⟨hL, ?_⟩
  have := h
  rw [trimSpace, hL] at this
  exact this

theorem trimLeft_head_nws (l : List Char) (c : Char) (r : List Char)
    (h : trimLeft l = c :: r) : wsChar c = false := by
  induction l with
  | nil => simp [trimLeft] at h
  | cons a t ih =>
    by_cases ha : wsChar a = true
    · rw [trimLeft, if_pos ha] at h
      exact ih h
    · rw [trimLeft, if_neg ha] at h
      cases h
      simpa using ha

theorem head_nws_of_trimLeft_fix (c : Char) (r : List Char)
    (h : trimLeft (c :: r) = c :: r) : wsChar c = false :=
  trimLeft_head_nws (c :: r) c r h

theorem trimRight_of_last_nws (l : List Char) (c : Char) (h : wsChar c = false) :
    trimRight (l ++ [c]) = l ++ [c] := by
  rw [trimRight, List.reverse_append]
  simp only [List.reverse_cons, List.reverse_nil, List.nil_append, List.singleton_append]
  rw [trimLeft_cons_of_nws c l.reverse h]
  simp

theorem trimSpace_eq_self_of_ends (l : List Char) (c : Char) (r : List Char)
    (d : Char) (l' : List Char)
    (h1 : l = c :: r) (hc : wsChar c = false)
    (h2 : l = l' ++ [d]) (hd : wsChar d = false) : trimSpace l = l := by
  have hL : trimLeft l = l := by rw [h1]; exact trimLeft_cons_of_nws c r hc
  rw [trimSpace, hL, h2]
  exact trimRight_of_last_nws l' d hd

theorem trimRight_reverse_eq (l : List Char) :
    (trimRight l).reverse = trimLeft l.reverse := by
  rw [trimRight, List.reverse_reverse]

theorem trimSpace_idem (l : List Char) : trimSpace (trimSpace l) = trimSpace l := by
  rcases hx : trimSpace l with _ | ⟨c, r⟩
  · rfl
  · have hhead : wsChar c = false := by
      obtain ⟨t, ht⟩ := trimRight_exists_drop (trimLeft l)
      rw [show trimRight (trimLeft l) = trimSpace l from rfl, hx] at ht
      exact trimLeft_head_nws l c (r ++ t) (by rw [← ht]; simp)
    have hrev : (trimSpace l).reverse = trimLeft (trimLeft l).reverse := by
      rw [trimSpace, trimRight_reverse_eq]
    rcases hy : (trimSpace l).reverse with _ | ⟨d, t'⟩
    · rw [hx] at hy; simp at hy
    · have hdn : wsChar d = false := by
        rw [hrev] at hy
        exact trimLeft_head_nws _ d t' hy
      have hlast : trimSpace l = t'.reverse ++ [d] := by
        have := congrArg List.reverse hy
        simpa using this
      rw [← hx]
      exact trimSpace_eq_self_of_ends (trimSpace l) c r d t'.reverse hx hhead hlast hdn

theorem trimRight_append_ws (l : List Char) (c : Char) (hw : wsChar c = true) :
    trimRight (l ++ [c]) = trimRight l := by
  rw [trimRight, List.reverse_append]
  simp only [List.reverse_cons, List.reverse_nil, List.nil_append, List.singleton_append]
  rw [show trimLeft (c :: l.reverse) = trimLeft l.reverse by simp [trimLeft, hw]]
  rfl

theorem trimSpace_append_ws (l : List Char) (c : Char)
    (h : trimSpace l = l) (hw : wsChar c = true) : trimSpace (l ++ [c]) = l := by
  rcases l with _ | ⟨a, r⟩
  · simp [trimSpace, trimRight, trimLeft, hw]
  · obtain ⟨hL, hR⟩ := trim_fix_parts _ h
    have ha : wsChar a = false := head_nws_of_trimLeft_fix a r hL
    rw [trimSpace]
    rw [show (a :: r) ++ [c] = a :: (r ++ [c]) from rfl]
    rw [trimLeft_cons_of_nws a (r ++ [c]) ha]
    rw [show a :: (r ++ [c]) = (a :: r) ++ [c] from rfl]
    rw [trimRight_append_ws (a :: r) c hw]
    exact hR

/-- C1: the quote-tracking splitter never treats a semicolon seen while
inside a single- or double-quoted literal as a statement boundary (it is
appended to the current statement and the emitted-statement list is
unchanged at that step); concretely, the two-line scenario with an
embedded `;` inside a single-quoted literal splits into exactly the two
whole statements, and a doubled-quote escape keeps the literal (and its
semicolon) intact in one statement. -/
theorem c1_no_split_inside_quotes :
    (∀ (st : SplitState) (rest : List Char), st.inQuotes = true →
        (st.quoteChar = sqc ∨ st.quoteChar = dqc) →
        scanLine st (';' :: rest)
          = scanLine ⟨st.statements, st.cur ++ [';'], st.inQuotes, st.quoteChar⟩ rest)
    ∧ splitSQLStatements c1Input = [c1Out1, c1Out2]
    ∧ splitSQLStatements c1EscInput = [c1EscOut] := by
  refine ⟨?_, by decide, by decide⟩
  rintro ⟨stmts, cur, inQ, qc⟩ rest h1 h2
  dsimp only at h1 h2
  subst h1
  have e1 : (decide (';' = sqc) : Bool) = false := by decide
  have e2 : (decide (';' = dqc) : Bool) = false := by decide
  rcases h2 with h | h <;> subst h <;> cases rest <;> simp [scanLine, e1, e2]

/-- Witness for C1: the step lemma applied at a concrete in-quote state. -/
theorem c1_witness :
    (⟨[], ['a'], true, sqc⟩ : SplitState).inQuotes = true
    ∧ scanLine ⟨[], ['a'], true, sqc⟩ [';'] = scanLine ⟨[], ['a', ';'], true, sqc⟩ [] :=
  ⟨rfl, c1_no_split_inside_quotes.1 ⟨[], ['a'], true, sqc⟩ [] rfl (Or.inl rfl)⟩

/-- C9 counterexample: the two `splitSQLStatements` implementations
disagree on a statement whose quoted literal contains a semicolon. -/
theorem c9_counterexample :
    splitSQLStatements c9Input ≠ splitSQLStatementsSimple c9Input := by decide

theorem mem_trimLeft_sub (l : List Char) (c : Char) (h : c ∈ trimLeft l) : c ∈ l := by
  obtain ⟨t, ht⟩ := trimLeft_exists_drop l
  rw [← ht]
  exact List.mem_append.mpr (Or.inr h)

theorem mem_trimRight_sub (l : List Char) (c : Char) (h : c ∈ trimRight l) : c ∈ l := by
  obtain ⟨t, ht⟩ := trimRight_exists_drop l
  rw [← ht]
  exact List.mem_append.mpr (Or.inl h)

theorem mem_trimSpace_sub (l : List Char) (c : Char) (h : c ∈ trimSpace l) : c ∈ l :=
  mem_trimLeft_sub l c (mem_trimRight_sub (trimLeft l) c h)

theorem splitOnChar_mem_parts (sep : Char) :
    ∀ (l : List Char) (p : List Char), p ∈ splitOnChar sep l → sep ∉ p := by
  intro l
  induction l with
  | nil =>
    intro p hp
    simp only [splitOnChar, List.mem_singleton] at hp
    subst hp
    simp
  | cons c rest ih =>
    intro p hp
    by_cases hc : c = sep
    · simp only [splitOnChar] at hp
      rw [if_pos hc] at hp
      rcases List.mem_cons.mp hp with h | h
      · subst h; simp
      · exact ih p h
    · simp only [splitOnChar] at hp
      rw [if_neg hc] at hp
      rcases heq : splitOnChar sep rest with _ | ⟨l1, ls⟩
      · rw [heq] at hp
        simp only [List.mem_singleton] at hp
        subst hp
        intro hmem
        simp only [List.mem_singleton] at hmem
        exact hc hmem.symm
      · rw [heq] at hp
        rcases List.mem_cons.mp hp with h | h
        · subst h
          intro hmem
          rcases List.mem_cons.mp hmem with h2 | h2
          · exact hc h2.symm
          · exact ih l1 (by rw [heq]; simp) h2
        · exact ih p (by rw [heq]; simp [h])

theorem foldl_mem_of_step (f : List (List Char) → List Char → List (List Char))
    (hf : ∀ acc part, f acc part = acc ∨ f acc part = acc ++ [trimSpace part]) :
    ∀ (parts : List (List Char)) (acc : List (List Char)) (s : List Char),
      s ∈ List.foldl f acc parts → s ∈ acc ∨ ∃ p ∈ parts, s = trimSpace p := by
  intro parts
  induction parts with
  | nil => intro acc s h; exact Or.inl h
  | cons q rest ih =>
    intro acc s h
    rw [List.foldl_cons] at h
    rcases ih (f acc q) s h with h2 | ⟨p, hp, hsp⟩
    · rcases hf acc q with he | he <;> rw [he] at h2
      · exact Or.inl h2
      · rcases List.mem_append.mp h2 with h3 | h3
        · exact Or.inl h3
        · simp only [List.mem_singleton] at h3
          exact Or.inr ⟨q, by simp, h3⟩
    · exact Or.inr ⟨p, by simp [hp], hsp⟩

theorem simple_split_no_semi (l : List Char) (s : List Char)
    (hs : s ∈ splitSQLStatementsSimple l) : ';' ∉ s := by
  intro hsemi
  simp only [splitSQLStatementsSimple] at hs
  have hstep : ∀ (acc : List (List Char)) (part : List Char),
      (fun (acc : List (List Char)) (part : List Char) =>
        let p := trimSpace part
        if p = [] then acc
        else if hasPrefixL p ['-', '-'] || hasPrefixL p ['#'] then acc
        else acc ++ [p]) acc part = acc
      ∨ (fun (acc : List (List Char)) (part : List Char) =>
        let p := trimSpace part
        if p = [] then acc
        else if hasPrefixL p ['-', '-'] || hasPrefixL p ['#'] then acc
        else acc ++ [p]) acc part = acc ++ [trimSpace part] := by
    intro acc part
    dsimp only
    split
    · exact Or.inl rfl
    · split
      · exact Or.inl rfl
      · exact Or.inr rfl
  rcases foldl_mem_of_step _ hstep (splitOnChar ';' l) [] s hs with h | ⟨p, hp, rfl⟩
  · simp at h
  · exact splitOnChar_mem_parts ';' l p hp (mem_trimSpace_sub p ';' hsemi)

/-- C9 (amended): the two `splitSQLStatements` implementations are not
equivalent.  In general, no statement emitted by the plain
split-on-every-semicolon version can contain a semicolon (it splits at
every one, quoted or not), whereas the quote-tracking version emits the
whole statement with its embedded semicolon on the scenario input, where
the simple version instead returns the two fragments of the cut literal. -/
theorem c9_not_equivalent :
    (∀ l s, s ∈ splitSQLStatementsSimple l → ';' ∉ s)
    ∧ ';' ∈ ("INSERT INTO t VALUES (".toList ++ [sqc] ++ "a;b".toList ++ [sqc] ++ ")".toList)
    ∧ splitSQLStatements c9Input
      = ["INSERT INTO t VALUES (".toList ++ [sqc] ++ "a;b".toList ++ [sqc] ++ ")".toList]
    ∧ splitSQLStatementsSimple c9Input
      = ["INSERT INTO t VALUES (".toList ++ [sqc] ++ "a".toList,
         "b".toList ++ [sqc] ++ ")".toList] := by
  exact ⟨fun l s hs => simple_split_no_semi l s hs, by decide, by decide, by decide⟩

/-- Witness for C9: the semicolon-free property applied to a concrete
output of the simple splitter on the scenario input. -/
theorem c9_witness :
    ("b".toList ++ [sqc] ++ ")".toList) ∈ splitSQLStatementsSimple c9Input
    ∧ ';' ∉ ("b".toList ++ [sqc] ++ ")".toList) :=
  ⟨by decide, c9_not_equivalent.1 c9Input ("b".toList ++ [sqc] ++ ")".toList) (by decide)⟩

theorem plain_ne (c : Char) (h : plainChar c = true) :
    ¬c = ';' ∧ ¬c = sqc ∧ ¬c = dqc ∧ ¬c = '\n' := by
  simpa [plainChar, and_assoc] using h

theorem wsChar_semi : wsChar ';' = false := by decide

theorem wsChar_nl : wsChar '\n' = true := by decide

theorem splitOnChar_no_sep (sep : Char) (l : List Char) (h : ∀ c ∈ l, ¬c = sep) :
    splitOnChar sep l = [l] := by
  induction l with
  | nil => rfl
  | cons c r ih =>
    have hc : ¬c = sep := h c (by simp)
    rw [splitOnChar, if_neg hc, ih (fun d hd => h d (by simp [hd]))]

theorem splitOnChar_append_sep (sep : Char) (s t : List Char) (h : ∀ c ∈ s, ¬c = sep) :
    splitOnChar sep (s ++ sep :: t) = s :: splitOnChar sep t := by
  induction s with
  | nil => simp [splitOnChar]
  | cons c r ih =>
    have hc : ¬c = sep := h c (by simp)
    rw [List.cons_append, splitOnChar, if_neg hc, ih (fun d hd => h d (by simp [hd]))]

theorem scanLine_nil (st : SplitState) : scanLine st [] = st := by
  cases st; rfl

theorem scanLine_plain (s : List Char) (hs : ∀ c ∈ s, plainChar c = true) :
    ∀ (stmts : List (List Char)) (cur t : List Char) (qc : Char),
      scanLine ⟨stmts, cur, false, qc⟩ (s ++ t) = scanLine ⟨stmts, cur ++ s, false, qc⟩ t := by
  induction s with
  | nil => intro stmts cur t qc; simp
  | cons c r ih =>
    intro stmts cur t qc
    obtain ⟨h1, h2, h3, _⟩ := plain_ne c (hs c (by simp))
    rw [List.cons_append, scanLine.eq_def]
    dsimp only
    rw [decide_eq_false h2, decide_eq_false h3, decide_eq_false h1]
    simp only [Bool.not_false, Bool.or_self, Bool.and_false, Bool.false_and, Bool.true_and,
      Bool.and_self, if_false, Bool.false_eq_true, ite_false]
    rw [ih (fun d hd => hs d (by simp [hd]))]
    simp

theorem scanLine_semi (stmts : List (List Char)) (cur t : List Char) (qc : Char) :
    scanLine ⟨stmts, cur, false, qc⟩ (';' :: t)
      = scanLine ⟨stmts ++ (if trimSpace cur ≠ [] then [trimSpace cur] else []), [], false, qc⟩ t := by
  rw [scanLine.eq_def]
  dsimp only
  have e1 : (decide (';' = sqc) : Bool) = false := by decide
  have e2 : (decide (';' = dqc) : Bool) = false := by decide
  have e3 : (decide (';' = ';') : Bool) = true := by decide
  rw [e1, e2, e3]
  simp

theorem goodStmt_head_nws (s : List Char) (h : goodStmt s) :
    ∃ a r, s = a :: r ∧ wsChar a = false := by
  obtain ⟨hne, htrim, _⟩ := h
  rcases s with _ | ⟨a, r⟩
  · exact absurd rfl hne
  · exact ⟨a, r, rfl, head_nws_of_trimLeft_fix a r (trim_fix_parts _ htrim).1⟩

theorem hasPrefixL_append_one (s t : List Char) (p : Char) (hs : s ≠ []) :
    hasPrefixL (s ++ t) [p] = hasPrefixL s [p] := by
  rcases s with _ | ⟨c, r⟩
  · exact absurd rfl hs
  · simp [hasPrefixL]

theorem hasPrefixL_append_semi_two (s : List Char) (a b : Char) (hs : s ≠ [])
    (hb : ¬(';' = b)) (h : hasPrefixL s [a, b] = false) :
    hasPrefixL (s ++ [';']) [a, b] = false := by
  rcases s with _ | ⟨c, r⟩
  · exact absurd rfl hs
  · rcases r with _ | ⟨c2, r2⟩
    · simp [hasPrefixL, decide_eq_false hb]
    · simpa [hasPrefixL] using h

theorem trimSpace_append_semi (s : List Char) (h : goodStmt s) :
    trimSpace (s ++ [';']) = s ++ [';'] := by
  obtain ⟨a, r, hsar, ha⟩ := goodStmt_head_nws s h
  exact trimSpace_eq_self_of_ends (s ++ [';']) a (r ++ [';']) ';' s
    (by rw [hsar]; rfl) ha rfl wsChar_semi

theorem processLine_good (acc : List (List Char)) (q : Char) (s : List Char) (h : goodStmt s) :
    processLine ⟨acc, [], false, q⟩ (s ++ [';']) = ⟨acc ++ [s], [], false, q⟩ := by
  obtain ⟨hne, htrim, hplain, hp1, hp2, hp3⟩ := h
  rw [processLine]
  simp only [trimSpace_append_semi s ⟨hne, htrim, hplain, hp1, hp2, hp3⟩]
  rw [hasPrefixL_append_semi_two s '-' '-' hne (by decide) hp1,
    hasPrefixL_append_one s [';'] '#' hne, hp2,
    hasPrefixL_append_semi_two s '/' '*' hne (by decide) hp3]
  simp only [Bool.or_self, Bool.false_eq_true, if_false, ite_false, Bool.or_false]
  rw [if_neg (by simp : ¬(s ++ [';'] = []))]
  rw [show s ++ [';'] = s ++ ';' :: [] from rfl]
  rw [scanLine_plain s hplain acc [] [';'] q]
  rw [scanLine_semi acc ([] ++ s) [] q]
  simp only [List.nil_append]
  rw [htrim, if_pos hne, scanLine_nil]
  simp

theorem processLine_good_last (acc : List (List Char)) (q : Char) (s : List Char)
    (h : goodStmt s) :
    processLine ⟨acc, [], false, q⟩ s = ⟨acc, s ++ ['\n'], false, q⟩ := by
  obtain ⟨hne, htrim, hplain, hp1, hp2, hp3⟩ := h
  rw [processLine]
  simp only [htrim, hp1, hp2, hp3]
  simp only [Bool.or_self, Bool.false_eq_true, if_false, ite_false, Bool.or_false]
  rw [if_neg hne]
  rw [show scanLine ⟨acc, [], false, q⟩ s = scanLine ⟨acc, [] ++ s, false, q⟩ [] by
    rw [← scanLine_plain s hplain acc [] [] q]; simp]
  rw [scanLine_nil]
  simp only [List.nil_append]
  rw [if_pos hne]

theorem renderSQL_cons_ne (s : List Char) (rest : List (List Char)) (h : rest ≠ []) :
    renderSQL (s :: rest) = s ++ ';' :: '\n' :: renderSQL rest := by
  rcases rest with _ | ⟨s2, r2⟩
  · exact absurd rfl h
  · rfl

theorem foldl_render (front : List (List Char)) (sN : List Char) :
    ∀ (acc : List (List Char)) (q : Char),
      (∀ s ∈ front ++ [sN], goodStmt s) →
      List.foldl processLine ⟨acc, [], false, q⟩ (splitOnChar '\n' (renderSQL (front ++ [sN])))
        = ⟨acc ++ front, sN ++ ['\n'], false, q⟩ := by
  induction front with
  | nil =>
    intro acc q hg
    have hN : goodStmt sN := hg sN (by simp)
    have hnl : ∀ c ∈ sN, ¬c = '\n' := fun c hc => (plain_ne c (hN.2.2.1 c hc)).2.2.2
    rw [show renderSQL ([] ++ [sN]) = sN from rfl, splitOnChar_no_sep '\n' sN hnl]
    simp only [List.foldl_cons, List.foldl_nil]
    rw [processLine_good_last acc q sN hN]
    simp
  | cons f front' ih =>
    intro acc q hg
    have hf : goodStmt f := hg f (by simp)
    have hnl : ∀ c ∈ f ++ [';'], ¬c = '\n' := by
      intro c hc
      rcases List.mem_append.mp hc with hc | hc
      · exact (plain_ne c (hf.2.2.1 c hc)).2.2.2
      · simp at hc; subst hc; decide
    rw [show (f :: front') ++ [sN] = f :: (front' ++ [sN]) from rfl]
    rw [renderSQL_cons_ne f (front' ++ [sN]) (by simp)]
    rw [show f ++ ';' :: '\n' :: renderSQL (front' ++ [sN])
        = (f ++ [';']) ++ '\n' :: renderSQL (front' ++ [sN]) by simp]
    rw [splitOnChar_append_sep '\n' (f ++ [';']) (renderSQL (front' ++ [sN])) hnl]
    simp only [List.foldl_cons]
    rw [processLine_good acc q f hf]
    rw [ih (acc ++ [f]) q (fun s hs => hg s (by simp at hs ⊢; tauto))]
    simp

/-- C5: for every non-empty list of well-formed statements (non-empty,
trimmed, plain characters, not comment-like), the quote-tracking splitter
applied to their semicolon-separated rendering — with the last statement
left without a closing semicolon — returns exactly that list: same count,
same order, each statement trimmed and non-empty, and the trailing
unterminated text emitted as the final statement. -/
theorem c5_split_roundtrip (front : List (List Char)) (sN : List Char)
    (hg : ∀ s ∈ front ++ [sN], goodStmt s) :
    splitSQLStatements (renderSQL (front ++ [sN])) = front ++ [sN] := by
  have hN : goodStmt sN := hg sN (by simp)
  rw [splitSQLStatements]
  rw [foldl_render front sN [] (Char.ofNat 0) hg]
  dsimp only
  have hcur : ¬(sN ++ ['\n'] = []) := by simp
  rw [if_pos hcur]
  rw [trimSpace_append_ws sN '\n' hN.2.1 wsChar_nl]
  rw [if_pos hN.1]
  simp

/-- Witness for C5: two concrete one-character statements round-trip. -/
theorem c5_witness :
    (∀ s ∈ [['S'], ['T']], goodStmt s)
    ∧ splitSQLStatements (renderSQL ([['S']] ++ [['T']])) = [['S']] ++ [['T']] := by
  constructor
  · decide
  · exact c5_split_roundtrip [['S']] ['T'] (by decide)

theorem getConnection_migrations (m : ConnectionManager) (name : String) :
    (getConnection m name).state.executedMigrations = m.executedMigrations := by
  unfold getConnection
  repeat' split
  all_goals rfl

theorem runMigration_migrations (m : ConnectionManager) (name fp : String)
    (content : Except String (List Char)) (exec : List Char → Option String) :
    (runMigration m name fp content exec).state.executedMigrations = m.executedMigrations := by
  unfold runMigration
  split <;> rename_i heq
  · have h := getConnection_migrations m name
    rw [heq] at h
    exact h
  · have h := getConnection_migrations m name
    rw [heq] at h
    dsimp only at h ⊢
    repeat' split
    all_goals exact h

/-- C3: `GetConnection` fails with the config-not-found error when the
name has no config; fails with the factory-not-found error when the
config's driver has no registered factory; returns the cached client
without invoking the factory when one is cached; otherwise invokes the
factory with the config's DSN and, on factory failure, surfaces the
factory's error leaving the connections map unchanged, while on success
it stores and returns the new client. -/
theorem c3_getConnection (m : ConnectionManager) (name : String) :
    (lookupL m.connConfigs name = none →
      getConnection m name
        = ⟨.error ("database connection config not found for " ++ name), m,
           [.connRLock, .connRUnlock]⟩)
    ∧ (∀ config, lookupL m.connConfigs name = some config →
        lookupL m.connectionFns config.DriverName = none →
        getConnection m name
          = ⟨.error ("database connection function not found for driver " ++ config.DriverName),
             m, [.connRLock, .connRUnlock]⟩)
    ∧ (∀ config connFn conn, lookupL m.connConfigs name = some config →
        lookupL m.connectionFns config.DriverName = some connFn →
        lookupL m.connections name = some conn →
        getConnection m name = ⟨.ok conn, m, [.connRLock, .connRUnlock]⟩
          ∧ .factoryCall ∉ (getConnection m name).trace)
    ∧ (∀ config connFn e, lookupL m.connConfigs name = some config →
        lookupL m.connectionFns config.DriverName = some connFn →
        lookupL m.connections name = none →
        connFn config.Dsn = .error e →
        getConnection m name
          = ⟨.error e, m, [.connRLock, .connRUnlock, .connLock, .factoryCall, .connUnlock]⟩)
    ∧ (∀ config connFn conn, lookupL m.connConfigs name = some config →
        lookupL m.connectionFns config.DriverName = some connFn →
        lookupL m.connections name = none →
        connFn config.Dsn = .ok conn →
        getConnection m name
          = ⟨.ok conn, { m with connections := mapSet m.connections name conn },
             [.connRLock, .connRUnlock, .connLock, .factoryCall, .connUnlock]⟩) := by
  refine ⟨?_, ?_, ?_, ?_, ?_⟩
  · intro h
    simp only [getConnection, h]
  · intro config h1 h2
    simp only [getConnection, h1, h2]
  · intro config connFn conn h1 h2 h3
    refine ⟨by simp only [getConnection, h1, h2, h3], ?_⟩
    simp only [getConnection, h1, h2, h3]
    decide
  · intro config connFn e h1 h2 h3 h4
    simp only [getConnection, h1, h2, h3, h4]
  · intro config connFn conn h1 h2 h3 h4
    simp only [getConnection, h1, h2, h3, h4]

/-- Witness for C3: the create-and-cache path at a concrete manager. -/
theorem c3_witness :
    lookupL mgr0.connConfigs "db" = some ⟨"sqlite", "file.db"⟩
    ∧ lookupL mgr0.connectionFns "sqlite" = some demoFactory
    ∧ lookupL mgr0.connections "db" = none
    ∧ demoFactory "file.db" = .ok 1
    ∧ getConnection mgr0 "db"
        = ⟨.ok 1, { mgr0 with connections := mapSet mgr0.connections "db" 1 },
           [.connRLock, .connRUnlock, .connLock, .factoryCall, .connUnlock]⟩ :=
  ⟨rfl, rfl, rfl, rfl,
    (c3_getConnection mgr0 "db").2.2.2.2 ⟨"sqlite", "file.db"⟩ demoFactory 1 rfl rfl rfl rfl⟩

/-- C2: `RunMigrationOnce` returns success immediately — state untouched
and migration body not invoked — when the composite key is already marked
executed; when the body fails, its error is surfaced, the key stays
unmarked and a repeat call invokes the body again; when the body
succeeds, the key is marked executed. -/
theorem c2_runMigrationOnce (m : ConnectionManager) (name fp : String)
    (content : Except String (List Char)) (exec : List Char → Option String) :
    (migrationKey name fp ∈ m.executedMigrations →
      runMigrationOnce m name fp content exec
        = ⟨.ok (), m, false, [], [.migRLock, .migRUnlock]⟩)
    ∧ (migrationKey name fp ∉ m.executedMigrations →
      ∀ e m2 com tr, runMigration m name fp content exec = ⟨.error e, m2, com, tr⟩ →
        (runMigrationOnce m name fp content exec).result = .error e
        ∧ (runMigrationOnce m name fp content exec).ran = true
        ∧ migrationKey name fp ∉ (runMigrationOnce m name fp content exec).state.executedMigrations
        ∧ ∀ content2 exec2,
            (runMigrationOnce (runMigrationOnce m name fp content exec).state
              name fp content2 exec2).ran = true)
    ∧ (migrationKey name fp ∉ m.executedMigrations →
      ∀ m2 com tr, runMigration m name fp content exec = ⟨.ok (), m2, com, tr⟩ →
        (runMigrationOnce m name fp content exec).result = .ok ()
        ∧ (runMigrationOnce m name fp content exec).ran = true
        ∧ migrationKey name fp ∈ (runMigrationOnce m name fp content exec).state.executedMigrations) := by
  refine ⟨?_, ?_, ?_⟩
  · intro h
    simp only [runMigrationOnce]
    rw [if_pos h]
  · intro h e m2 com tr heq
    have hmig : m2.executedMigrations = m.executedMigrations := by
      have h2 := runMigration_migrations m name fp content exec
      rw [heq] at h2
      exact h2
    simp only [runMigrationOnce]
    rw [if_neg h, heq]
    refine ⟨rfl, rfl, by simpa [hmig] using h, ?_⟩
    intro content2 exec2
    simp only [runMigrationOnce]
    rw [if_neg (by simpa [hmig] using h)]
    split <;> rfl
  · intro h m2 com tr heq
    have hmig : m2.executedMigrations = m.executedMigrations := by
      have h2 := runMigration_migrations m name fp content exec
      rw [heq] at h2
      exact h2
    simp only [runMigrationOnce]
    rw [if_neg h, heq]
    exact ⟨rfl, rfl, by simp⟩

/-- Witness for C2: the success path at a concrete manager and file. -/
theorem c2_witness :
    migrationKey "db" "f.sql" ∉ mgr0.executedMigrations
    ∧ (runMigrationOnce mgr0 "db" "f.sql" contentOk execOk).result = .ok ()
    ∧ (runMigrationOnce mgr0 "db" "f.sql" contentOk execOk).ran = true
    ∧ migrationKey "db" "f.sql"
        ∈ (runMigrationOnce mgr0 "db" "f.sql" contentOk execOk).state.executedMigrations :=
  ⟨by decide,
    ((c2_runMigrationOnce mgr0 "db" "f.sql" contentOk execOk).2.2 (by decide)
      mgr1 ["SELECT 1".toList]
      [.connRLock, .connRUnlock, .connLock, .factoryCall, .connUnlock, .txExec] rfl).1,
    ((c2_runMigrationOnce mgr0 "db" "f.sql" contentOk execOk).2.2 (by decide)
      mgr1 ["SELECT 1".toList]
      [.connRLock, .connRUnlock, .connLock, .factoryCall, .connUnlock, .txExec] rfl).2.1,
    ((c2_runMigrationOnce mgr0 "db" "f.sql" contentOk execOk).2.2 (by decide)
      mgr1 ["SELECT 1".toList]
      [.connRLock, .connRUnlock, .connLock, .factoryCall, .connUnlock, .txExec] rfl).2.2⟩

/-- C10: the migration key is the plain concatenation
`name ++ ":" ++ file_path`, which identifies the distinct argument pairs
`("a:b", "c")` and `("a", "b:c")`; after a successful `RunMigrationOnce`
on the first pair, the call on the second distinct pair returns success
without invoking the migration body. -/
theorem c10_migration_key_collision :
    migrationKey "a:b" "c" = migrationKey "a" "b:c"
    ∧ (("a:b", "c") : String × String) ≠ ("a", "b:c")
    ∧ (runMigrationOnce mgrC10 "a:b" "c" contentOk execOk).result = .ok ()
    ∧ (runMigrationOnce mgrC10 "a:b" "c" contentOk execOk).ran = true
    ∧ (runMigrationOnce (runMigrationOnce mgrC10 "a:b" "c" contentOk execOk).state
        "a" "b:c" contentOk execOk).result = .ok ()
    ∧ (runMigrationOnce (runMigrationOnce mgrC10 "a:b" "c" contentOk execOk).state
        "a" "b:c" contentOk execOk).ran = false := by
  exact ⟨rfl, by decide, rfl, rfl, rfl, rfl⟩

theorem closeAllLoop_ok (dbErr closeErr : Nat → Option String) :
    ∀ l : List (String × Nat), (∀ p ∈ l, dbErr p.2 = none ∧ closeErr p.2 = none) →
      closeAllLoop dbErr closeErr l = (none, l.map Prod.snd) := by
  intro l
  induction l with
  | nil => intro _; rfl
  | cons p rest ih =>
    intro h
    obtain ⟨h1, h2⟩ := h p (by simp)
    obtain ⟨k, c⟩ := p
    rw [closeAllLoop]
    dsimp only at h1 h2
    rw [h1, h2, ih (fun q hq => h q (by simp [hq]))]
    rfl

theorem closeAllLoop_fail (dbErr closeErr : Nat → Option String) :
    ∀ (pre : List (String × Nat)) (k : String) (c : Nat) (post : List (String × Nat)) (e : String),
      (∀ p ∈ pre, dbErr p.2 = none ∧ closeErr p.2 = none) →
      (dbErr c = some e ∨ (dbErr c = none ∧ closeErr c = some e)) →
      closeAllLoop dbErr closeErr (pre ++ (k, c) :: post) = (some e, pre.map Prod.snd) := by
  intro pre
  induction pre with
  | nil =>
    intro k c post e _ hf
    rw [List.nil_append, closeAllLoop]
    rcases hf with hf | ⟨hf1, hf2⟩
    · rw [hf]
      rfl
    · rw [hf1, hf2]
      rfl
  | cons p rest ih =>
    intro k c post e h hf
    obtain ⟨h1, h2⟩ := h p (by simp)
    obtain ⟨k0, c0⟩ := p
    rw [List.cons_append, closeAllLoop]
    dsimp only at h1 h2
    rw [h1, h2, ih k c post e (fun q hq => h q (by simp [hq])) hf]
    rfl

/-- C6 (amended): when every close succeeds, `CloseAll` closes every
cached client in map order and resets the connections map to empty; when
some close fails, it aborts at the first failure, having closed exactly
the preceding entries, and leaves the connections map unchanged — so the
already-closed entries remain cached and a subsequent `CloseAll` (or
`Close`) will close them a second time. -/
theorem c6_closeAll (m : ConnectionManager) (dbErr closeErr : Nat → Option String) :
    ((∀ p ∈ m.connections, dbErr p.2 = none ∧ closeErr p.2 = none) →
      closeAll m dbErr closeErr
        = (none, { m with connections := [] }, m.connections.map Prod.snd))
    ∧ (∀ pre k c post e, m.connections = pre ++ (k, c) :: post →
        (∀ p ∈ pre, dbErr p.2 = none ∧ closeErr p.2 = none) →
        (dbErr c = some e ∨ (dbErr c = none ∧ closeErr c = some e)) →
        closeAll m dbErr closeErr = (some e, m, pre.map Prod.snd)) := by
  constructor
  · intro h
    rw [closeAll, closeAllLoop_ok dbErr closeErr m.connections h]
  · intro pre k c post e hconn hpre hf
    rw [closeAll, hconn, closeAllLoop_fail dbErr closeErr pre k c post e hpre hf]

/-- C6 counterexample: after a failed `CloseAll` run that already closed
client 1, the map is unchanged, so running `CloseAll` again closes
client 1 a second time — an entry IS double-closed by a subsequent call. -/
theorem c6_counterexample :
    (closeAll mgrC6 noErr closeFail2).1 = some "close failed"
    ∧ 1 ∈ (closeAll mgrC6 noErr closeFail2).2.2
    ∧ (closeAll mgrC6 noErr closeFail2).2.1 = mgrC6
    ∧ 1 ∈ (closeAll (closeAll mgrC6 noErr closeFail2).2.1 noErr closeFail2).2.2 := by
  exact ⟨rfl, by decide, rfl, by decide⟩

/-- Witness for C6: the all-success path on a concrete manager. -/
theorem c6_witness :
    (∀ p ∈ mgrC6.connections, noErr p.2 = none ∧ noErr p.2 = none)
    ∧ closeAll mgrC6 noErr noErr
        = (none, { mgrC6 with connections := [] }, mgrC6.connections.map Prod.snd) :=
  ⟨by decide, (c6_closeAll mgrC6 noErr noErr).1 (by decide)⟩

theorem stmts_append_emit (stl : List (List Char)) (cur : List Char)
    (h : ∀ s ∈ stl, trimSpace s = s ∧ s ≠ []) :
    ∀ s ∈ stl ++ (if trimSpace cur ≠ [] then [trimSpace cur] else []),
      trimSpace s = s ∧ s ≠ [] := by
  intro s hs
  rcases List.mem_append.mp hs with hs | hs
  · exact h s hs
  · split at hs
    · rename_i hg
      simp only [List.mem_singleton] at hs
      subst hs
      exact ⟨trimSpace_idem cur, hg⟩
    · simp at hs

theorem scanLine_stmts_aux :
    ∀ (n : Nat) (line : List Char), line.length ≤ n →
      ∀ (st : SplitState), (∀ s ∈ st.statements, trimSpace s = s ∧ s ≠ []) →
        ∀ s ∈ (scanLine st line).statements, trimSpace s = s ∧ s ≠ [] := by
  intro n
  induction n with
  | zero =>
    intro line hlen st h
    have hnil : line = [] := List.length_eq_zero.mp (Nat.le_zero.mp hlen)
    subst hnil
    rw [scanLine_nil]
    exact h
  | succ n ih =>
    intro line hlen st h
    rcases line with _ | ⟨c, rest⟩
    · rw [scanLine_nil]; exact h
    · obtain ⟨stmts, cur, inQ, qc⟩ := st
      rcases rest with _ | ⟨c2, rest2⟩
      · simp only [scanLine]
        split
        · exact ih [] (by simp) _ h
        · split
          · exact h
          · split
            · exact stmts_append_emit stmts cur h
            · exact ih [] (by simp) _ h
      · have h1 : (c2 :: rest2).length ≤ n := by
          simpa using Nat.le_of_succ_le_succ (by simpa using hlen)
        have h2 : rest2.length ≤ n := Nat.le_trans (by simp) h1
        simp only [scanLine]
        split
        · exact ih _ h1 _ h
        · split
          · split
            · exact ih _ h2 _ h
            · exact ih _ h1 _ h
          · split
            · refine ih _ h1 _ ?_
              exact stmts_append_emit stmts cur h
            · exact ih _ h1 _ h

theorem scanLine_stmts_inv (st : SplitState) (line : List Char)
    (h : ∀ s ∈ st.statements, trimSpace s = s ∧ s ≠ []) :
    ∀ s ∈ (scanLine st line).statements, trimSpace s = s ∧ s ≠ [] :=
  scanLine_stmts_aux line.length line (Nat.le_refl _) st h

theorem processLine_stmts_inv (st : SplitState) (raw : List Char)
    (h : ∀ s ∈ st.statements, trimSpace s = s ∧ s ≠ []) :
    ∀ s ∈ (processLine st raw).statements, trimSpace s = s ∧ s ≠ [] := by
  rw [processLine]
  split
  · exact h
  · split
    · exact h
    · split
      · exact h
      · split <;> rename_i st2 heq
        · split
          · intro s hs
            have := scanLine_stmts_inv st (trimSpace raw) h
            rw [heq] at this
            exact this s hs
          · intro s hs
            have := scanLine_stmts_inv st (trimSpace raw) h
            rw [heq] at this
            exact this s hs

theorem foldl_stmts_inv :
    ∀ (lines : List (List Char)) (st : SplitState),
      (∀ s ∈ st.statements, trimSpace s = s ∧ s ≠ []) →
      ∀ s ∈ (List.foldl processLine st lines).statements, trimSpace s = s ∧ s ≠ [] := by
  intro lines
  induction lines with
  | nil => intro st h; exact h
  | cons l rest ih =>
    intro st h
    rw [List.foldl_cons]
    exact ih _ (processLine_stmts_inv st l h)

theorem mem_split_trim (l : List Char) :
    ∀ s ∈ splitSQLStatements l, trimSpace s = s ∧ s ≠ [] := by
  rw [splitSQLStatements]
  split <;> rename_i stmts cur inQ qc heq
  have hbase : ∀ s ∈ stmts, trimSpace s = s ∧ s ≠ [] := by
    intro s hs
    have := foldl_stmts_inv (splitOnChar '\n' l) ⟨[], [], false, Char.ofNat 0⟩ (by simp)
    rw [heq] at this
    exact this s hs
  split
  · dsimp only
    split
    · rename_i hg
      intro s hs
      rcases List.mem_append.mp hs with hs | hs
      · exact hbase s hs
      · simp only [List.mem_singleton] at hs
        subst hs
        exact ⟨trimSpace_idem cur, hg⟩
    · exact hbase
  · exact hbase

theorem runMigrationTx_ok (exec : List Char → Option String) (fp : String) :
    ∀ (l : List (List Char)) (i : Nat),
      (∀ t ∈ l, trimSpace t = t ∧ t ≠ [] ∧ exec t = none) →
      runMigrationTx exec fp l i = (.ok (), l) := by
  intro l
  induction l with
  | nil => intro i _; rfl
  | cons stmt rest ih =>
    intro i h
    obtain ⟨h1, h2, h3⟩ := h stmt (by simp)
    rw [runMigrationTx]
    simp only [h1]
    rw [if_neg h2, h3, ih (i + 1) (fun t ht => h t (by simp [ht]))]

theorem runMigrationTx_fail (exec : List Char → Option String) (fp : String) :
    ∀ (pre : List (List Char)) (s : List Char) (post : List (List Char)) (i : Nat) (e : String),
      (∀ t ∈ pre, trimSpace t = t ∧ t ≠ [] ∧ exec t = none) →
      trimSpace s = s → s ≠ [] → exec s = some e →
      runMigrationTx exec fp (pre ++ s :: post) i
        = (.error ("failed to execute statement " ++ toString (i + pre.length + 1) ++ " in file "
            ++ fp ++ ": " ++ e ++ "\nStatement: " ++ String.mk s), pre ++ [s]) := by
  intro pre
  induction pre with
  | nil =>
    intro s post i e _ hts hne hx
    rw [List.nil_append, runMigrationTx]
    simp only [hts]
    rw [if_neg hne, hx]
    simp
  | cons p rest ih =>
    intro s post i e h hts hne hx
    obtain ⟨h1, h2, h3⟩ := h p (by simp)
    rw [List.cons_append, runMigrationTx]
    simp only [h1]
    rw [if_neg h2, h3, ih s post (i + 1) e (fun t ht => h t (by simp [ht])) hts hne hx]
    have harith : i + 1 + rest.length + 1 = i + (p :: rest).length + 1 := by
      simp [List.length_cons]
      omega
    rw [harith]
    simp

/-- C4: `RunMigration` (with a resolved connection) fails with the
file-read error when the file is unreadable; with the empty-file error
when the content is blank after trimming; with the no-statements error
when the splitter yields nothing; on the first failing statement the
transaction is rolled back (nothing committed), statements after the
failing one are never executed, and the error carries the 1-based index,
the file path, the driver error and the statement text; and when every
statement succeeds, all of them are committed in order. -/
theorem c4_runMigration (m : ConnectionManager) (name fp : String)
    (content : Except String (List Char)) (exec : List Char → Option String)
    (db : Nat) (m2 : ConnectionManager) (tr : List Ev)
    (hconn : getConnection m name = ⟨.ok db, m2, tr⟩) :
    (∀ ioe, content = .error ioe →
      runMigration m name fp content exec
        = ⟨.error ("failed to read SQL file " ++ fp ++ ": " ++ ioe), m2, [], tr⟩)
    ∧ (∀ c, content = .ok c → trimSpace c = [] →
      runMigration m name fp content exec
        = ⟨.error ("SQL file " ++ fp ++ " is empty"), m2, [], tr⟩)
    ∧ (∀ c, content = .ok c → trimSpace c ≠ [] → splitSQLStatements (trimSpace c) = [] →
      runMigration m name fp content exec
        = ⟨.error ("no valid SQL statements found in file " ++ fp), m2, [], tr⟩)
    ∧ (∀ c pre s post e, content = .ok c →
        splitSQLStatements (trimSpace c) = pre ++ s :: post →
        (∀ t ∈ pre, exec t = none) → exec s = some e →
        runMigration m name fp content exec
          = ⟨.error ("failed to execute statement " ++ toString (pre.length + 1) ++ " in file "
              ++ fp ++ ": " ++ e ++ "\nStatement: " ++ String.mk s), m2, [], tr ++ [.txExec]⟩
        ∧ runMigrationTx exec fp (pre ++ s :: post) 0
          = (.error ("failed to execute statement " ++ toString (pre.length + 1) ++ " in file "
              ++ fp ++ ": " ++ e ++ "\nStatement: " ++ String.mk s), pre ++ [s]))
    ∧ (∀ c, content = .ok c → splitSQLStatements (trimSpace c) ≠ [] →
        (∀ t ∈ splitSQLStatements (trimSpace c), exec t = none) →
        runMigration m name fp content exec
          = ⟨.ok (), m2, splitSQLStatements (trimSpace c), tr ++ [.txExec]⟩) := by
  refine ⟨?_, ?_, ?_, ?_, ?_⟩
  · intro ioe hc
    subst hc
    simp only [runMigration, hconn]
  · intro c hc htrim
    subst hc
    simp only [runMigration, hconn]
    rw [if_pos htrim]
  · intro c hc htrim hsplit
    subst hc
    simp only [runMigration, hconn]
    rw [if_neg htrim, if_pos hsplit]
  · intro c pre s post e hc hsplit hpre hs
    subst hc
    have htrim : trimSpace c ≠ [] := by
      intro habs
      rw [habs] at hsplit
      rw [show splitSQLStatements [] = [] from rfl] at hsplit
      exact List.cons_ne_nil s post (List.append_eq_nil.mp hsplit.symm).2
    have hmem : ∀ t ∈ pre ++ s :: post, trimSpace t = t ∧ t ≠ [] := by
      intro t ht
      have := mem_split_trim (trimSpace c) t (hsplit ▸ ht)
      exact this
    have hpre2 : ∀ t ∈ pre, trimSpace t = t ∧ t ≠ [] ∧ exec t = none := by
      intro t ht
      obtain ⟨ha, hb⟩ := hmem t (List.mem_append_left _ ht)
      exact ⟨ha, hb, hpre t ht⟩
    obtain ⟨hsa, hsb⟩ := hmem s (by simp)
    have htx := runMigrationTx_fail exec fp pre s post 0 e hpre2 hsa hsb hs
    rw [Nat.zero_add] at htx
    refine ⟨?_, htx⟩
    simp only [runMigration, hconn]
    rw [if_neg htrim, if_neg (by rw [hsplit]; simp), hsplit, htx]
  · intro c hc hne hallok
    subst hc
    have hall : ∀ t ∈ splitSQLStatements (trimSpace c), trimSpace t = t ∧ t ≠ [] ∧ exec t = none := by
      intro t ht
      obtain ⟨ha, hb⟩ := mem_split_trim (trimSpace c) t ht
      exact ⟨ha, hb, hallok t ht⟩
    have htrim : trimSpace c ≠ [] := by
      intro habs
      rw [habs] at hne
      exact hne (show splitSQLStatements [] = [] from rfl)
    simp only [runMigration, hconn]
    rw [if_neg htrim, if_neg hne, runMigrationTx_ok exec fp _ 0 hall]

/-- Witness for C4: on content `a;b;c` with the executor failing on `b`,
the migration aborts with the statement-2 error, commits nothing, and
never executes `c`. -/
theorem c4_witness :
    getConnection mgr0 "db"
      = ⟨.ok 1, mgr1, [.connRLock, .connRUnlock, .connLock, .factoryCall, .connUnlock]⟩
    ∧ runMigration mgr0 "db" "f.sql" contentABC execFailB
      = ⟨.error ("failed to execute statement 2 in file f.sql: boom\nStatement: b"), mgr1, [],
         [.connRLock, .connRUnlock, .connLock, .factoryCall, .connUnlock, .txExec]⟩
    ∧ runMigrationTx execFailB "f.sql" (["a".toList] ++ "b".toList :: ["c".toList]) 0
      = (.error ("failed to execute statement 2 in file f.sql: boom\nStatement: b"),
         ["a".toList] ++ ["b".toList]) :=
  ⟨rfl,
    ((c4_runMigration mgr0 "db" "f.sql" contentABC execFailB 1 mgr1
        [.connRLock, .connRUnlock, .connLock, .factoryCall, .connUnlock] rfl).2.2.2.1
      ("a;b;c".toList) ["a".toList] ("b".toList) ["c".toList] "boom" rfl (by decide)
      (by decide) rfl).1,
    ((c4_runMigration mgr0 "db" "f.sql" contentABC execFailB 1 mgr1
        [.connRLock, .connRUnlock, .connLock, .factoryCall, .connUnlock] rfl).2.2.2.1
      ("a;b;c".toList) ["a".toList] ("b".toList) ["c".toList] "boom" rfl (by decide)
      (by decide) rfl).2⟩

theorem execTables_ok (exec : String → Option String) (mkStmt : String → String) (verb : String) :
    ∀ l : List String, (∀ t ∈ l, exec (mkStmt t) = none) →
      execTables exec mkStmt verb l = (none, l.map mkStmt) := by
  intro l
  induction l with
  | nil => intro _; rfl
  | cons t rest ih =>
    intro h
    rw [execTables]
    dsimp only
    rw [h t (by simp), ih (fun u hu => h u (by simp [hu]))]
    rfl

theorem execTables_fail (exec : String → Option String) (mkStmt : String → String) (verb : String) :
    ∀ (pre : List String) (t : String) (post : List String) (e : String),
      (∀ u ∈ pre, exec (mkStmt u) = none) → exec (mkStmt t) = some e →
      execTables exec mkStmt verb (pre ++ t :: post)
        = (some ("failed to " ++ verb ++ " table " ++ t ++ ": " ++ e),
           pre.map mkStmt ++ [mkStmt t]) := by
  intro pre
  induction pre with
  | nil =>
    intro t post e _ hx
    rw [List.nil_append, execTables]
    dsimp only
    rw [hx]
    simp
  | cons u rest ih =>
    intro t post e h hx
    rw [List.cons_append, execTables]
    dsimp only
    rw [h u (by simp), ih t post e (fun v hv => h v (by simp [hv])) hx]
    simp

theorem delete_ne_sqliteFkOn (u : String) : ¬("DELETE FROM " ++ u) = sqliteFkOn := by
  intro h
  obtain ⟨ud⟩ := u
  have hd := congrArg String.data h
  rw [show (("DELETE FROM " ++ (⟨ud⟩ : String)).data)
      = 'D' :: ("ELETE FROM ".data ++ ud) from rfl] at hd
  rw [show sqliteFkOn.data = 'P' :: "RAGMA foreign_keys = ON".data from rfl] at hd
  injection hd with h1 _
  exact absurd h1 (by decide)

theorem drop_ne_mysqlFkOn (u : String) : ¬("DROP TABLE IF EXISTS " ++ u) = mysqlFkOn := by
  intro h
  obtain ⟨ud⟩ := u
  have hd := congrArg String.data h
  rw [show (("DROP TABLE IF EXISTS " ++ (⟨ud⟩ : String)).data)
      = 'D' :: ("ROP TABLE IF EXISTS ".data ++ ud) from rfl] at hd
  rw [show mysqlFkOn.data = 'S' :: "ET FOREIGN_KEY_CHECKS = 1".data from rfl] at hd
  injection hd with h1 _
  exact absurd h1 (by decide)

/-- C7: for the SQLite flush and the MySQL drop operations, when every
step succeeds the issued statement sequence is exactly the
disable-checks statement, the table enumeration, one destructive
statement per table in enumeration order, then the re-enable statement;
when the destructive statement for some table fails, the loop aborts
immediately — nothing is issued for any later table —, the re-enable
statement is never issued (integrity enforcement stays disabled), and
the returned error names the failing table. -/
theorem c7_dialect_ops (exec : String → Option String) (tbls : List String) :
    ((∀ t ∈ tbls, exec ("DELETE FROM " ++ t) = none) → exec sqliteFkOff = none →
      exec sqliteFkOn = none →
      FlushSQLiteTables exec (.ok tbls)
        = (none, sqliteFkOff :: sqliteEnum
            :: (tbls.map (fun t => "DELETE FROM " ++ t) ++ [sqliteFkOn])))
    ∧ (∀ pre t post e, tbls = pre ++ t :: post → exec sqliteFkOff = none →
        (∀ u ∈ pre, exec ("DELETE FROM " ++ u) = none) →
        exec ("DELETE FROM " ++ t) = some e →
        FlushSQLiteTables exec (.ok tbls)
          = (some ("failed to flush table " ++ t ++ ": " ++ e),
             sqliteFkOff :: sqliteEnum
               :: (pre.map (fun u => "DELETE FROM " ++ u) ++ ["DELETE FROM " ++ t]))
        ∧ sqliteFkOn ∉ (FlushSQLiteTables exec (.ok tbls)).2)
    ∧ ((∀ t ∈ tbls, exec ("DROP TABLE IF EXISTS " ++ t) = none) → exec mysqlFkOff = none →
      exec mysqlFkOn = none →
      DropMySQLTables exec (.ok tbls)
        = (none, mysqlFkOff :: mysqlEnum
            :: (tbls.map (fun t => "DROP TABLE IF EXISTS " ++ t) ++ [mysqlFkOn])))
    ∧ (∀ pre t post e, tbls = pre ++ t :: post → exec mysqlFkOff = none →
        (∀ u ∈ pre, exec ("DROP TABLE IF EXISTS " ++ u) = none) →
        exec ("DROP TABLE IF EXISTS " ++ t) = some e →
        DropMySQLTables exec (.ok tbls)
          = (some ("failed to drop table " ++ t ++ ": " ++ e),
             mysqlFkOff :: mysqlEnum
               :: (pre.map (fun u => "DROP TABLE IF EXISTS " ++ u) ++ ["DROP TABLE IF EXISTS " ++ t]))
        ∧ mysqlFkOn ∉ (DropMySQLTables exec (.ok tbls)).2) := by
  refine ⟨?_, ?_, ?_, ?_⟩
  · intro hall hoff hon
    rw [FlushSQLiteTables, hoff, execTables_ok exec _ "flush" tbls hall, hon]
  · intro pre t post e htbls hoff hpre hx
    have hlog : FlushSQLiteTables exec (.ok tbls)
        = (some ("failed to flush table " ++ t ++ ": " ++ e),
           sqliteFkOff :: sqliteEnum
             :: (pre.map (fun u => "DELETE FROM " ++ u) ++ ["DELETE FROM " ++ t])) := by
      rw [FlushSQLiteTables, hoff, htbls, execTables_fail exec _ "flush" pre t post e hpre hx]
      rfl
    refine ⟨hlog, ?_⟩
    rw [hlog]
    intro hmem
    simp only [List.mem_cons, List.mem_append, List.mem_map, List.mem_singleton,
      List.not_mem_nil, or_false, false_or] at hmem
    rcases hmem with h1 | h1 | ⟨u, _, h1⟩ | h1
    · exact absurd h1 (by decide)
    · exact absurd h1 (by decide)
    · exact delete_ne_sqliteFkOn u h1
    · exact delete_ne_sqliteFkOn t h1.symm
  · intro hall hoff hon
    rw [DropMySQLTables, hoff, execTables_ok exec _ "drop" tbls hall, hon]
  · intro pre t post e htbls hoff hpre hx
    have hlog : DropMySQLTables exec (.ok tbls)
        = (some ("failed to drop table " ++ t ++ ": " ++ e),
           mysqlFkOff :: mysqlEnum
             :: (pre.map (fun u => "DROP TABLE IF EXISTS " ++ u) ++ ["DROP TABLE IF EXISTS " ++ t])) := by
      rw [DropMySQLTables, hoff, htbls, execTables_fail exec _ "drop" pre t post e hpre hx]
      rfl
    refine ⟨hlog, ?_⟩
    rw [hlog]
    intro hmem
    simp only [List.mem_cons, List.mem_append, List.mem_map, List.mem_singleton,
      List.not_mem_nil, or_false, false_or] at hmem
    rcases hmem with h1 | h1 | ⟨u, _, h1⟩ | h1
    · exact absurd h1 (by decide)
    · exact absurd h1 (by decide)
    · exact drop_ne_mysqlFkOn u h1
    · exact drop_ne_mysqlFkOn t h1.symm

/-- Witness for C7: with tables `u1, u2, u3` and the statement for `u2`
failing, the flush issues exactly the disable statement, the enumeration,
and the first two destructive statements, and never re-enables; the
analogous drop scenario behaves the same. -/
theorem c7_witness :
    (∀ u ∈ ["u1"], execC7f ("DELETE FROM " ++ u) = none)
    ∧ execC7f ("DELETE FROM u2") = some "locked"
    ∧ FlushSQLiteTables execC7f (.ok ["u1", "u2", "u3"])
        = (some ("failed to flush table u2: locked"),
           sqliteFkOff :: sqliteEnum :: ["DELETE FROM u1", "DELETE FROM u2"])
    ∧ DropMySQLTables execC7d (.ok ["u1", "u2", "u3"])
        = (some ("failed to drop table u2: locked"),
           mysqlFkOff :: mysqlEnum :: ["DROP TABLE IF EXISTS u1", "DROP TABLE IF EXISTS u2"]) :=
  ⟨by decide, rfl,
    ((c7_dialect_ops execC7f ["u1", "u2", "u3"]).2.1 ["u1"] "u2" ["u3"] "locked" rfl rfl
      (by decide) rfl).1,
    ((c7_dialect_ops execC7d ["u1", "u2", "u3"]).2.2.2 ["u1"] "u2" ["u3"] "locked" rfl rfl
      (by decide) rfl).1⟩

theorem lookupL_mapSet_self {α : Type} (l : List (String × α)) (k : String) (v : α) :
    lookupL (mapSet l k v) k = some v := by
  induction l with
  | nil => simp [mapSet, lookupL]
  | cons p rest ih =>
    obtain ⟨k0, w⟩ := p
    by_cases h : k0 = k
    · subst h
      simp [mapSet, lookupL]
    · rw [mapSet, if_neg h, lookupL, if_neg h]
      exact ih

theorem getConnection_stable (m : ConnectionManager) (name : String) (db : Nat)
    (m2 : ConnectionManager) (tr : List Ev)
    (hconn : getConnection m name = ⟨.ok db, m2, tr⟩) :
    getConnection m2 name = ⟨.ok db, m2, [.connRLock, .connRUnlock]⟩ := by
  unfold getConnection at hconn
  split at hconn
  · simp at hconn
  · rename_i config hcfg
    split at hconn
    · simp at hconn
    · rename_i connFn hfn
      split at hconn
      · rename_i conn hcached
        simp only [GetConnResult.mk.injEq, Except.ok.injEq] at hconn
        obtain ⟨rfl, rfl, rfl⟩ := hconn
        simp only [getConnection, hcfg, hfn, hcached]
      · rename_i hmiss
        split at hconn
        · simp at hconn
        · rename_i conn hok
          simp only [GetConnResult.mk.injEq, Except.ok.injEq] at hconn
          obtain ⟨rfl, rfl, rfl⟩ := hconn
          simp only [getConnection, hcfg, hfn, lookupL_mapSet_self]

theorem getConnection_trace_cases (m : ConnectionManager) (name : String) :
    (getConnection m name).trace = [.connRLock, .connRUnlock]
    ∨ (getConnection m name).trace
        = [.connRLock, .connRUnlock, .connLock, .factoryCall, .connUnlock] := by
  unfold getConnection
  repeat' split
  all_goals first | exact Or.inl rfl | exact Or.inr rfl

/-- C8 counterexample: on a concrete first-time migration run that
reaches the transaction, the transaction executes while the exclusive
migration-tracking lock is held — contradicting the claim that neither
lock is held during the transaction. -/
theorem c8_counterexample :
    (runMigrationOnce mgr0 "db" "f.sql" contentOk execOk).result = .ok ()
    ∧ (runMigrationOnce mgr0 "db" "f.sql" contentOk execOk).ran = true
    ∧ Ev.txExec ∈ (runMigrationOnce mgr0 "db" "f.sql" contentOk execOk).trace
    ∧ evHeldDuring .migLock .migUnlock .txExec
        (runMigrationOnce mgr0 "db" "f.sql" contentOk execOk).trace = true := by
  exact ⟨rfl, rfl, by decide, by decide⟩

/-- C8 (amended): once a `GetConnection` call has produced and cached the
client for a name, every subsequent `GetConnection` for that name returns
the very same handle without invoking the factory — the sequential
surrogate, through the double-checked cache, of: concurrent first-time
callers cause exactly one factory invocation and all observe the same
handle.  For every migration key the body executes at most once per
manager instance: after a successful run the key is marked and later
calls skip the body.  But on a first-time `RunMigrationOnce` run that
reaches its transaction, the transaction executes while the
migration-tracking exclusive lock IS held (the Go code unlocks only after
`RunMigration` returns), while neither the connection-cache write lock
nor its read lock is held during the transaction — so long-running
migrations do not block connection lookups, yet do block other
`RunMigrationOnce` calls. -/
theorem c8_lock_discipline (m : ConnectionManager) (name fp : String)
    (content : Except String (List Char)) (exec : List Char → Option String)
    (hnew : migrationKey name fp ∉ m.executedMigrations)
    (db : Nat) (m2 : ConnectionManager) (tr : List Ev)
    (hconn : getConnection m name = ⟨.ok db, m2, tr⟩)
    (c : List Char) (hc : content = .ok c) (hne : trimSpace c ≠ [])
    (hsplit : splitSQLStatements (trimSpace c) ≠ []) :
    evHeldDuring .migLock .migUnlock .txExec
      (runMigrationOnce m name fp content exec).trace = true
    ∧ evHeldDuring .connLock .connUnlock .txExec
        (runMigrationOnce m name fp content exec).trace = false
    ∧ evHeldDuring .connRLock .connRUnlock .txExec
        (runMigrationOnce m name fp content exec).trace = false
    ∧ ((runMigrationOnce m name fp content exec).result = .ok () →
        ∀ content2 exec2,
          (runMigrationOnce (runMigrationOnce m name fp content exec).state
            name fp content2 exec2).ran = false)
    ∧ getConnection m2 name = ⟨.ok db, m2, [.connRLock, .connRUnlock]⟩
    ∧ .factoryCall ∉ (getConnection m2 name).trace := by
  subst hc
  have hstable : getConnection m2 name = ⟨.ok db, m2, [.connRLock, .connRUnlock]⟩ :=
    getConnection_stable m name db m2 tr hconn
  have hnofc : Ev.factoryCall ∉ (getConnection m2 name).trace := by
    rw [hstable]
    dsimp only
    decide
  have htrc : tr = [.connRLock, .connRUnlock]
      ∨ tr = [.connRLock, .connRUnlock, .connLock, .factoryCall, .connUnlock] := by
    have h := getConnection_trace_cases m name
    rw [hconn] at h
    exact h
  rcases hres : runMigrationTx exec fp (splitSQLStatements (trimSpace c)) 0 with ⟨res, att⟩
  rcases res with e | u
  · have hR : runMigration m name fp (.ok c) exec
        = ⟨.error e, m2, [], tr ++ [.txExec]⟩ := by
      simp only [runMigration, hconn]
      rw [if_neg hne, if_neg hsplit, hres]
    have hRO : runMigrationOnce m name fp (.ok c) exec
        = ⟨.error e, m2, true, [],
           [.migRLock, .migRUnlock, .migLock] ++ (tr ++ [.txExec]) ++ [.migUnlock]⟩ := by
      simp only [runMigrationOnce]
      rw [if_neg hnew, hR]
    rw [hRO]
    rcases htrc with h | h <;> subst h
    · exact ⟨by dsimp only; decide, by dsimp only; decide, by dsimp only; decide,
        by intro hok; simp at hok, hstable, hnofc⟩
    · exact ⟨by dsimp only; decide, by dsimp only; decide, by dsimp only; decide,
        by intro hok; simp at hok, hstable, hnofc⟩
  · obtain ⟨⟩ := u
    have hR : runMigration m name fp (.ok c) exec
        = ⟨.ok (), m2, att, tr ++ [.txExec]⟩ := by
      simp only [runMigration, hconn]
      rw [if_neg hne, if_neg hsplit, hres]
    have hRO : runMigrationOnce m name fp (.ok c) exec
        = ⟨.ok (), { m2 with executedMigrations := migrationKey name fp :: m2.executedMigrations },
           true, att,
           [.migRLock, .migRUnlock, .migLock] ++ (tr ++ [.txExec]) ++ [.migUnlock]⟩ := by
      simp only [runMigrationOnce]
      rw [if_neg hnew, hR]
    rw [hRO]
    refine ⟨?_, ?_, ?_, ?_, hstable, hnofc⟩
    · rcases htrc with h | h <;> subst h <;> dsimp only <;> decide
    · rcases htrc with h | h <;> subst h <;> dsimp only <;> decide
    · rcases htrc with h | h <;> subst h <;> dsimp only <;> decide
    · intro _ content2 exec2
      simp only [runMigrationOnce]
      rw [if_pos (by simp : migrationKey name fp
        ∈ ({ m2 with executedMigrations := migrationKey name fp :: m2.executedMigrations }
            : ConnectionManager).executedMigrations)]

/-- Witness for C8: the lock-discipline and same-handle facts at a
concrete first run. -/
theorem c8_witness :
    migrationKey "db" "f.sql" ∉ mgr0.executedMigrations
    ∧ evHeldDuring .migLock .migUnlock .txExec
        (runMigrationOnce mgr0 "db" "f.sql" contentOk execOk).trace = true
    ∧ evHeldDuring .connLock .connUnlock .txExec
        (runMigrationOnce mgr0 "db" "f.sql" contentOk execOk).trace = false
    ∧ evHeldDuring .connRLock .connRUnlock .txExec
        (runMigrationOnce mgr0 "db" "f.sql" contentOk execOk).trace = false
    ∧ getConnection mgr1 "db" = ⟨.ok 1, mgr1, [.connRLock, .connRUnlock]⟩ :=
  ⟨by decide,
    (c8_lock_discipline mgr0 "db" "f.sql" contentOk execOk (by decide) 1 mgr1
      [.connRLock, .connRUnlock, .connLock, .factoryCall, .connUnlock] rfl
      ("SELECT 1".toList) rfl (by decide) (by decide)).1,
    (c8_lock_discipline mgr0 "db" "f.sql" contentOk execOk (by decide) 1 mgr1
      [.connRLock, .connRUnlock, .connLock, .factoryCall, .connUnlock] rfl
      ("SELECT 1".toList) rfl (by decide) (by decide)).2.1,
    (c8_lock_discipline mgr0 "db" "f.sql" contentOk execOk (by decide) 1 mgr1
      [.connRLock, .connRUnlock, .connLock, .factoryCall, .connUnlock] rfl
      ("SELECT 1".toList) rfl (by decide) (by decide)).2.2.1,
    (c8_lock_discipline mgr0 "db" "f.sql" contentOk execOk (by decide) 1 mgr1
      [.connRLock, .connRUnlock, .connLock, .factoryCall, .connUnlock] rfl
      ("SELECT 1".toList) rfl (by decide) (by decide)).2.2.2.2.1⟩

end Dbro
